import Mathlib

/-!
Shallow embedding of `exe4cpp::MockExecutor` and `exe4cpp::MockTimer`
(src/exe4cpp/MockExecutor.h) in Lean 4.

Modelling choices:
* `steady_time_t` / `duration_t` are `std::chrono` types over a signed 64-bit
  tick count; time points and durations are both embedded as `Int` ticks
  (only differences and orderings are used by the code under study).
* `action_t` is an opaque closure; actions are embedded as opaque `Nat`
  markers, and "invoking" an action appends its marker to an execution
  `trace` field added to the state for observation.
* `std::shared_ptr<MockTimer>` identity (pointer identity used by
  `MockExecutor::cancel`) is embedded as a unique `id : Nat` stamped on each
  timer record from a fresh counter at `start` time.
* `std::deque` / `std::vector` become `List` with `push_back` as append.
-/

/-- A pending timer record: embeds `MockTimer` (expiration `time`, `action`)
together with an `id` standing for the object identity of the
`shared_ptr<MockTimer>` used by `MockExecutor::cancel`. -/
structure MockTimerRec where
  time : Int
  action : Nat
  id : Nat
deriving Repr, DecidableEq

/-- State of a `MockExecutor`: embeds the fields `num_timer_cancel_`,
`current_time`, `post_queue`, `timers`; plus `next_id` (the source of fresh
pointer identities) and `trace` (the log of invoked actions, standing for the
side effects of running `action_t` closures). -/
structure MockExecutor where
  num_timer_cancel : Nat := 0
  current_time : Int := 0
  post_queue : List Nat := []
  timers : List MockTimerRec := []
  next_id : Nat := 0
  trace : List Nat := []
deriving Repr, DecidableEq

/-- A fresh `MockExecutor()`: default-constructed, virtual clock at the
epoch. -/
def MockExecutor.fresh : MockExecutor := {}

/-- The `expired` lambda of `MockExecutor::find_expired_timer`:
`timer->expires_at() <= this->current_time`. -/
def MockExecutor.expired (now : Int) (t : MockTimerRec) : Bool :=
  t.time ≤ now

/-- Embeds the body of `MockExecutor::find_expired_timer`: `std::find_if`
over `timers` with the `expired` predicate, fused with the `erase` of the
found iterator.  Returns the found timer's action together with the remaining
timer list, or `none` when no timer has expired. -/
def MockExecutor.find_expired_in (now : Int) :
    List MockTimerRec → Option (Nat × List MockTimerRec)
  | [] => none
  | t :: ts =>
    if MockExecutor.expired now t then
      some (t.action, ts)
    else
      match MockExecutor.find_expired_in now ts with
      | none => none
      | some (a, ts2) => some (a, t :: ts2)

/-- `MockExecutor::find_expired_timer`: if some pending timer has
`expires_at() <= current_time`, push its action onto the back of
`post_queue`, erase it from `timers` and return `true`; otherwise return
`false`. -/
def MockExecutor.find_expired_timer (s : MockExecutor) : MockExecutor × Bool :=
  match MockExecutor.find_expired_in s.current_time s.timers with
  | none => (s, false)
  | some (a, ts) =>
    ({ s with post_queue := s.post_queue ++ [a], timers := ts }, true)

/-- `MockExecutor::check_for_expired_timers`: loop `find_expired_timer` while
it returns `true`, counting the number of timers moved to the ready queue. -/
def MockExecutor.check_for_expired_timers (s : MockExecutor) :
    MockExecutor × Nat :=
  match h : MockExecutor.find_expired_timer s with
  | (s2, true) =>
    have hlen : s2.timers.length < s.timers.length := by
      have key : ∀ (l : List MockTimerRec) (a : Nat) (ts : List MockTimerRec),
          MockExecutor.find_expired_in s.current_time l = some (a, ts) →
            ts.length + 1 = l.length := by
        intro l
        induction l with
        | nil => intro a ts hk; simp [MockExecutor.find_expired_in] at hk
        | cons t rest ih =>
          intro a ts hk
          by_cases he : MockExecutor.expired s.current_time t
          · simp [MockExecutor.find_expired_in, he] at hk
            simp [hk.2.symm]
          · simp only [MockExecutor.find_expired_in, he, if_false] at hk
            rcases hr : MockExecutor.find_expired_in s.current_time rest
              with _ | ⟨a2, ts2⟩
            · rw [hr] at hk; simp at hk
            · rw [hr] at hk
              have hk2 : a2 = a ∧ t :: ts2 = ts := by simpa using hk
              have hlen2 := ih a2 ts2 hr
              rw [← hk2.2]
              simp [← hlen2]
      unfold MockExecutor.find_expired_timer at h
      rcases hf : MockExecutor.find_expired_in s.current_time s.timers
        with _ | ⟨a, ts⟩
      · rw [hf] at h; simp at h
      · rw [hf] at h
        simp at h
        have hlen3 := key s.timers a ts hf
        have h2 : s2.timers.length = ts.length := by rw [← h]
        omega
    let rest := MockExecutor.check_for_expired_timers s2
    (rest.1, rest.2 + 1)
  | (s2, false) => (s2, 0)
termination_by s.timers.length

/-- `MockExecutor::run_one`: sweep all expired timers into the ready queue,
then if the queue is non-empty pop its front, invoke it (append its marker to
the trace) and return `true`, else return `false`. -/
def MockExecutor.run_one (s : MockExecutor) : MockExecutor × Bool :=
  let s1 := (MockExecutor.check_for_expired_timers s).1
  match s1.post_queue with
  | [] => (s1, false)
  | runnable :: rest =>
    ({ s1 with post_queue := rest, trace := s1.trace ++ [runnable] }, true)

/-- The loop of `MockExecutor::run_many`:
`while (num < aMaximum && this->run_one()) ++num;`, structured on the
remaining budget `aMaximum - num`.  Note `run_one` is still called (and
sweeps) on the iteration that returns `false`. -/
def MockExecutor.run_many_go : MockExecutor → Nat → MockExecutor × Nat
  | s, 0 => (s, 0)
  | s, n + 1 =>
    let r := MockExecutor.run_one s
    if r.2 then
      let rest := MockExecutor.run_many_go r.1 n
      (rest.1, rest.2 + 1)
    else
      (r.1, 0)

/-- `MockExecutor::run_many`: run up to `maximum` actions, returning the
number dispatched. -/
def MockExecutor.run_many (s : MockExecutor) (maximum : Nat) :
    MockExecutor × Nat :=
  MockExecutor.run_many_go s maximum

/-- `MockExecutor::post`: `post_queue.push_back(runnable)`. -/
def MockExecutor.post (s : MockExecutor) (runnable : Nat) : MockExecutor :=
  { s with post_queue := s.post_queue ++ [runnable] }

/-- `MockExecutor::get_time`: returns `current_time`. -/
def MockExecutor.get_time (s : MockExecutor) : Int :=
  s.current_time

/-- `MockExecutor::add_time`: `current_time += duration`; does not sweep. -/
def MockExecutor.add_time (s : MockExecutor) (duration : Int) : MockExecutor :=
  { s with current_time := s.current_time + duration }

/-- `MockExecutor::advance_time`: `add_time` then `check_for_expired_timers`,
returning the number of timers that were moved to the ready queue. -/
def MockExecutor.advance_time (s : MockExecutor) (duration : Int) :
    MockExecutor × Nat :=
  MockExecutor.check_for_expired_timers (MockExecutor.add_time s duration)

/-- `std::min_element` over `timers` with
`lhs->expires_at() < rhs->expires_at()`: the first element attaining the
minimal expiration, or `none` on the empty list. -/
def MockExecutor.min_element : List MockTimerRec → Option MockTimerRec
  | [] => none
  | t :: ts => some (ts.foldl (fun m u => if u.time < m.time then u else m) t)

/-- `MockExecutor::next_timer_expiration_abs`: minimal pending expiration, or
`steady_time_t()` (the epoch, tick 0) when no timer is pending. -/
def MockExecutor.next_timer_expiration_abs (s : MockExecutor) : Int :=
  match MockExecutor.min_element s.timers with
  | none => 0
  | some t => t.time

/-- `steady_time_t::max()`: the largest representable tick count of the
underlying signed 64-bit representation. -/
def steady_time_max : Int := 2 ^ 63 - 1

/-- `MockExecutor::next_timer_expiration_rel`: minimal pending expiration
minus `current_time`, or `steady_time_t::max()` when no timer is pending. -/
def MockExecutor.next_timer_expiration_rel (s : MockExecutor) : Int :=
  match MockExecutor.min_element s.timers with
  | none => steady_time_max
  | some t => t.time - s.current_time

/-- `MockExecutor::advance_to_next_timer`: if no timer is pending return
`false`; else if the minimal expiration is strictly after `current_time`, set
the clock to it and return `true`; else return `false`.  Never sweeps. -/
def MockExecutor.advance_to_next_timer (s : MockExecutor) :
    MockExecutor × Bool :=
  if s.timers.isEmpty then
    (s, false)
  else
    let timestamp := MockExecutor.next_timer_expiration_abs s
    if s.current_time < timestamp then
      ({ s with current_time := timestamp }, true)
    else
      (s, false)

/-- `MockExecutor::start(const steady_time_t&, const action_t&)`: make a new
`MockTimer` (with a fresh identity), push it onto `timers`, and hand back the
timer's identity as the `Timer` handle. -/
def MockExecutor.start_abs (s : MockExecutor) (time : Int) (runnable : Nat) :
    MockExecutor × Nat :=
  ({ s with
      timers := s.timers ++ [{ time := time, action := runnable, id := s.next_id }],
      next_id := s.next_id + 1 },
    s.next_id)

/-- `MockExecutor::start(const duration_t&, const action_t&)`: delegates to
the absolute overload at `current_time + delay`. -/
def MockExecutor.start_rel (s : MockExecutor) (delay : Int) (runnable : Nat) :
    MockExecutor × Nat :=
  MockExecutor.start_abs s (s.current_time + delay) runnable

/-- `MockExecutor::cancel(ITimer*)`: `std::find_if` over `timers` comparing
pointer identity; when found, bump `num_timer_cancel_` and erase the first
match, else do nothing. -/
def MockExecutor.cancel (s : MockExecutor) (timer : Nat) : MockExecutor :=
  if (s.timers.find? (fun t => t.id == timer)).isSome then
    { s with
        num_timer_cancel := s.num_timer_cancel + 1,
        timers := s.timers.eraseP (fun t => t.id == timer) }
  else
    s

/-! ## Structurally computable forms (for concrete evaluation) -/

/-- The closed form of the sweep loop as a structurally computable function:
append the actions of all expired timers (in pending-set order) to the ready
queue, retain the unexpired timers, and count the expired ones. -/
def MockExecutor.sweep_fast (s : MockExecutor) : MockExecutor × Nat :=
  ({ s with
      post_queue := s.post_queue ++
        (s.timers.filter (MockExecutor.expired s.current_time)).map
          MockTimerRec.action,
      timers := s.timers.filter
        (fun t => !MockExecutor.expired s.current_time t) },
   (s.timers.filter (MockExecutor.expired s.current_time)).length)

/-- `run_one` with the sweep in closed form. -/
def MockExecutor.run_one_fast (s : MockExecutor) : MockExecutor × Bool :=
  let s1 := (MockExecutor.sweep_fast s).1
  match s1.post_queue with
  | [] => (s1, false)
  | runnable :: rest =>
    ({ s1 with post_queue := rest, trace := s1.trace ++ [runnable] }, true)

/-- `run_many` with the sweep in closed form. -/
def MockExecutor.run_many_fast : MockExecutor → Nat → MockExecutor × Nat
  | s, 0 => (s, 0)
  | s, n + 1 =>
    let r := MockExecutor.run_one_fast s
    if r.2 then
      let rest := MockExecutor.run_many_fast r.1 n
      (rest.1, rest.2 + 1)
    else
      (r.1, 0)

/-- `MockExecutor::num_active`: the size of the ready queue. -/
def MockExecutor.num_active (s : MockExecutor) : Nat :=
  s.post_queue.length

/-- `MockExecutor::num_pending_timers`: the size of the pending-timer set. -/
def MockExecutor.num_pending_timers (s : MockExecutor) : Nat :=
  s.timers.length

/-- Posting a whole list of actions in order (iterated `post`). -/
def MockExecutor.post_all (s : MockExecutor) : List Nat → MockExecutor
  | [] => s
  | a :: rest => MockExecutor.post_all (MockExecutor.post s a) rest

/-- Well-formedness of the embedded pointer identities: distinct pending
timers are distinct objects, and every pending identity was allocated
earlier than the allocation counter. -/
def MockExecutor.WF (s : MockExecutor) : Prop :=
  (s.timers.map MockTimerRec.id).Nodup ∧
  ∀ t ∈ s.timers, t.id < s.next_id

/-- The operations a caller can perform on a `MockExecutor`, for stating
properties over arbitrary interaction sequences. -/
inductive ExecOp where
  | do_post (a : Nat)
  | do_start_rel (d : Int) (a : Nat)
  | do_start_abs (t : Int) (a : Nat)
  | do_run_one
  | do_run_many (n : Nat)
  | do_advance_time (d : Int)
  | do_add_time (d : Int)
  | do_advance_next
  | do_cancel (i : Nat)

/-- Apply one operation (discarding its return value). -/
def ExecOp.apply (s : MockExecutor) : ExecOp → MockExecutor
  | ExecOp.do_post a => MockExecutor.post s a
  | ExecOp.do_start_rel d a => (MockExecutor.start_rel s d a).1
  | ExecOp.do_start_abs t a => (MockExecutor.start_abs s t a).1
  | ExecOp.do_run_one => (MockExecutor.run_one s).1
  | ExecOp.do_run_many n => (MockExecutor.run_many s n).1
  | ExecOp.do_advance_time d => (MockExecutor.advance_time s d).1
  | ExecOp.do_add_time d => MockExecutor.add_time s d
  | ExecOp.do_advance_next => (MockExecutor.advance_to_next_timer s).1
  | ExecOp.do_cancel i => MockExecutor.cancel s i

/-- Apply a sequence of operations left to right. -/
def ExecOp.apply_all (s : MockExecutor) : List ExecOp → MockExecutor
  | [] => s
  | op :: rest => ExecOp.apply_all (ExecOp.apply s op) rest

/-! ## Timer handles (modelled from the spec) -/

/-- Modelled from the spec: the repository's `Timer` handle class
(`Timer.h`, which is not among the provided sources).  Per spec §4.2 the
handle "wraps a weak reference to a pending timer record (or, for
already-fired/cancelled timers, an inert state)"; it is identified here by
the identity of the record it refers to. -/
structure TimerHandle where
  id : Nat
deriving Repr, DecidableEq

/-- Modelled from the spec: the world a Timer handle acts on — the owning
scheduler while it is alive, or `none` once it has been destroyed (spec §9:
handles hold only a non-owning reference, and a stale handle must resolve to
"not found" rather than dereference the scheduler after it is gone). -/
structure SchedulerWorld where
  exec : Option MockExecutor
deriving Repr, DecidableEq

/-- Modelled from the spec: `Timer::cancel` (spec §4.2): "if the backing
record still exists and is pending, marks it dead and removes it from the
owning scheduler's pending set, incrementing the scheduler's cancellation
counter; otherwise a no-op.  Must be safe to call multiple times and safe to
call after the owning scheduler has been destroyed (cancellation silently
does nothing in that case)". -/
def TimerHandle.cancel (w : SchedulerWorld) (h : TimerHandle) : SchedulerWorld :=
  match w.exec with
  | none => w
  | some s => ⟨some (MockExecutor.cancel s h.id)⟩

/-- Iterated `Timer::cancel` calls on the same handle. -/
def TimerHandle.cancel_iter (h : TimerHandle) : Nat → SchedulerWorld → SchedulerWorld
  | 0, w => w
  | n + 1, w => TimerHandle.cancel_iter h n (TimerHandle.cancel w h)

/-- The destroyed-scheduler world. -/
def SchedulerWorld.destroyed : SchedulerWorld := ⟨none⟩

/-! ## Concrete example states -/

/-- A concrete example: two timers pending at ticks 5 and 3, clock at the
epoch. -/
def MockExecutor.two_timers : MockExecutor :=
  (MockExecutor.start_abs (MockExecutor.start_abs MockExecutor.fresh 5 1).1 3 2).1

/-- A concrete example: a single timer pending at tick `t`, clock at the
epoch. -/
def MockExecutor.one_timer_at (t : Int) : MockExecutor :=
  (MockExecutor.start_abs MockExecutor.fresh t 7).1

/-- The concrete interleaving scenario of the specification:
`post(a); schedule_absolute(now, b); post(c)` on a fresh scheduler. -/
def MockExecutor.interleaving (a b c : Nat) : MockExecutor :=
  MockExecutor.post
    ((MockExecutor.start_abs (MockExecutor.post MockExecutor.fresh a)
        (MockExecutor.get_time (MockExecutor.post MockExecutor.fresh a)) b).1)
    c

/-! ## Lemmas -/

/-- A successful `find_expired_timer` strictly shrinks the timer list (used
for termination of the sweep loop). -/
theorem MockExecutor.find_expired_in_length (now : Int) :
    ∀ (l : List MockTimerRec) (a : Nat) (ts : List MockTimerRec),
      MockExecutor.find_expired_in now l = some (a, ts) →
      ts.length + 1 = l.length := by
  intro l
  induction l with
  | nil => intro a ts h; simp [MockExecutor.find_expired_in] at h
  | cons t rest ih =>
    intro a ts h
    by_cases he : MockExecutor.expired now t
    · simp [MockExecutor.find_expired_in, he] at h
      simp [h.2.symm]
    · simp [MockExecutor.find_expired_in, he] at h
      cases hr : MockExecutor.find_expired_in now rest with
      | none => rw [hr] at h; simp at h
      | some p =>
        rw [hr] at h
        simp at h
        obtain ⟨ha, hts⟩ := h
        have := ih p.1 p.2 (by rw [hr])
        simp [← hts, List.length_cons, ← this]

theorem MockExecutor.check_none (s : MockExecutor)
    (h : MockExecutor.find_expired_in s.current_time s.timers = none) :
    MockExecutor.check_for_expired_timers s = (s, 0) := by
  unfold MockExecutor.check_for_expired_timers
  split
  · rename_i s2 heq
    rw [MockExecutor.find_expired_timer, h] at heq
    simp at heq
  · rename_i s2 heq
    rw [MockExecutor.find_expired_timer, h] at heq
    simp at heq
    rw [heq]

theorem MockExecutor.check_some (s : MockExecutor) (a : Nat)
    (ts : List MockTimerRec)
    (h : MockExecutor.find_expired_in s.current_time s.timers = some (a, ts)) :
    MockExecutor.check_for_expired_timers s =
      ((MockExecutor.check_for_expired_timers
          { s with post_queue := s.post_queue ++ [a], timers := ts }).1,
       (MockExecutor.check_for_expired_timers
          { s with post_queue := s.post_queue ++ [a], timers := ts }).2 + 1) := by
  conv_lhs => unfold MockExecutor.check_for_expired_timers
  split
  · rename_i s2 heq
    rw [MockExecutor.find_expired_timer, h] at heq
    simp at heq
    subst heq
    rfl
  · rename_i s2 heq
    rw [MockExecutor.find_expired_timer, h] at heq
    simp at heq

theorem MockExecutor.find_none_filter (now : Int) :
    ∀ l : List MockTimerRec,
      MockExecutor.find_expired_in now l = none →
        l.filter (MockExecutor.expired now) = [] ∧
        l.filter (fun t => !MockExecutor.expired now t) = l := by
  intro l
  induction l with
  | nil => intro _; simp
  | cons t rest ih =>
    intro h
    by_cases he : MockExecutor.expired now t
    · simp [MockExecutor.find_expired_in, he] at h
    · simp only [MockExecutor.find_expired_in, he, if_false] at h
      rcases hr : MockExecutor.find_expired_in now rest with _ | p
      · obtain ⟨h1, h2⟩ := ih hr
        simp [List.filter_cons, he, h1, h2]
      · rw [hr] at h; simp at h

theorem MockExecutor.find_some_spec (now : Int) :
    ∀ (l : List MockTimerRec) (a : Nat) (ts : List MockTimerRec),
      MockExecutor.find_expired_in now l = some (a, ts) →
        (l.filter (MockExecutor.expired now)).map MockTimerRec.action =
          a :: (ts.filter (MockExecutor.expired now)).map MockTimerRec.action ∧
        l.filter (fun t => !MockExecutor.expired now t) =
          ts.filter (fun t => !MockExecutor.expired now t) ∧
        ∀ x ∈ ts, x ∈ l := by
  intro l
  induction l with
  | nil => intro a ts h; simp [MockExecutor.find_expired_in] at h
  | cons t rest ih =>
    intro a ts h
    by_cases he : MockExecutor.expired now t
    · simp only [MockExecutor.find_expired_in, he, if_true] at h
      simp only [Option.some.injEq, Prod.mk.injEq] at h
      obtain ⟨ha, hts⟩ := h
      subst ha; subst hts
      refine ⟨by simp [List.filter_cons, he], by simp [List.filter_cons, he], ?_⟩
      intro x hx; exact List.mem_cons_of_mem _ hx
    · simp only [MockExecutor.find_expired_in, he, if_false] at h
      rcases hr : MockExecutor.find_expired_in now rest with _ | ⟨a2, ts2⟩
      · rw [hr] at h; simp at h
      · rw [hr] at h
        have h2 : a2 = a ∧ t :: ts2 = ts := by simpa using h
        obtain ⟨ha, hts⟩ := h2
        obtain ⟨ih1, ih2, ih3⟩ := ih a2 ts2 hr
        subst ha
        subst hts
        refine ⟨?_, ?_, ?_⟩
        · simpa [List.filter_cons, he] using ih1
        · simpa [List.filter_cons, he] using ih2
        · intro x hx
          rcases List.mem_cons.mp hx with h1 | h2
          · exact h1 ▸ List.mem_cons_self t rest
          · exact List.mem_cons_of_mem _ (ih3 x h2)

theorem MockExecutor.check_go (n : Nat) :
    ∀ s : MockExecutor, s.timers.length ≤ n →
      MockExecutor.check_for_expired_timers s =
        ({ s with
            post_queue := s.post_queue ++
              (s.timers.filter (MockExecutor.expired s.current_time)).map
                MockTimerRec.action,
            timers := s.timers.filter
              (fun t => !MockExecutor.expired s.current_time t) },
         (s.timers.filter (MockExecutor.expired s.current_time)).length) := by
  induction n with
  | zero =>
    intro s hs
    obtain ⟨nc, ct, q, tm, ni, tr⟩ := s
    have ht : tm = [] := List.length_eq_zero.mp (Nat.le_zero.mp hs)
    subst ht
    have hnone : MockExecutor.find_expired_in ct [] = none := rfl
    rw [MockExecutor.check_none _ hnone]
    simp
  | succ n ih =>
    intro s hs
    rcases hf : MockExecutor.find_expired_in s.current_time s.timers with _ | ⟨a, ts⟩
    · obtain ⟨h1, h2⟩ := MockExecutor.find_none_filter s.current_time s.timers hf
      rw [MockExecutor.check_none s hf, h1, h2]
      simp
    · have hlen := MockExecutor.find_expired_in_length s.current_time s.timers a ts hf
      obtain ⟨hmap, hfil, _⟩ := MockExecutor.find_some_spec s.current_time s.timers a ts hf
      rw [MockExecutor.check_some s a ts hf]
      have hts : ts.length ≤ n := by omega
      rw [ih { s with post_queue := s.post_queue ++ [a], timers := ts } hts]
      have hcount : (s.timers.filter (MockExecutor.expired s.current_time)).length
          = (ts.filter (MockExecutor.expired s.current_time)).length + 1 := by
        have hc := congrArg List.length hmap
        simpa using hc
      rw [hmap, hfil, hcount]
      simp

theorem MockExecutor.check_spec (s : MockExecutor) :
    MockExecutor.check_for_expired_timers s =
      ({ s with
          post_queue := s.post_queue ++
            (s.timers.filter (MockExecutor.expired s.current_time)).map
              MockTimerRec.action,
          timers := s.timers.filter
            (fun t => !MockExecutor.expired s.current_time t) },
       (s.timers.filter (MockExecutor.expired s.current_time)).length) :=
  MockExecutor.check_go s.timers.length s (Nat.le_refl _)

theorem MockExecutor.check_eq_fast (s : MockExecutor) :
    MockExecutor.check_for_expired_timers s = MockExecutor.sweep_fast s :=
  MockExecutor.check_spec s

theorem MockExecutor.run_one_eq (s : MockExecutor) :
    MockExecutor.run_one s = MockExecutor.run_one_fast s := by
  rw [MockExecutor.run_one, MockExecutor.run_one_fast, MockExecutor.check_eq_fast]

theorem MockExecutor.run_many_go_eq :
    ∀ (n : Nat) (s : MockExecutor),
      MockExecutor.run_many_go s n = MockExecutor.run_many_fast s n := by
  intro n
  induction n with
  | zero => intro s; rfl
  | succ n ih =>
    intro s
    rw [MockExecutor.run_many_go, MockExecutor.run_many_fast,
      MockExecutor.run_one_eq]
    by_cases hb : (MockExecutor.run_one_fast s).2
    · simp only [hb, if_true, ih]
    · simp [hb]

theorem MockExecutor.run_many_eq (s : MockExecutor) (n : Nat) :
    MockExecutor.run_many s n = MockExecutor.run_many_fast s n :=
  MockExecutor.run_many_go_eq n s

theorem MockExecutor.advance_time_eq (s : MockExecutor) (d : Int) :
    MockExecutor.advance_time s d =
      MockExecutor.sweep_fast (MockExecutor.add_time s d) := by
  rw [MockExecutor.advance_time, MockExecutor.check_eq_fast]

theorem MockExecutor.foldl_min_spec :
    ∀ (ts : List MockTimerRec) (t : MockTimerRec),
      (ts.foldl (fun m u => if u.time < m.time then u else m) t) ∈ t :: ts ∧
      (ts.foldl (fun m u => if u.time < m.time then u else m) t).time ≤ t.time ∧
      ∀ u ∈ ts,
        (ts.foldl (fun m u => if u.time < m.time then u else m) t).time ≤ u.time := by
  intro ts
  induction ts with
  | nil => intro t; exact ⟨List.mem_cons_self t [], le_refl _, by intro u hu; simp at hu⟩
  | cons v rest ih =>
    intro t
    simp only [List.foldl_cons]
    by_cases hv : v.time < t.time
    · simp only [hv, if_true]
      obtain ⟨h1, h2, h3⟩ := ih v
      refine ⟨?_, ?_, ?_⟩
      · rcases List.mem_cons.mp h1 with h | h
        · rw [h]; exact List.mem_cons_of_mem _ (List.mem_cons_self v rest)
        · exact List.mem_cons_of_mem _ (List.mem_cons_of_mem _ h)
      · exact le_trans h2 (le_of_lt hv)
      · intro u hu
        rcases List.mem_cons.mp hu with h | h
        · rw [h]; exact h2
        · exact h3 u h
    · simp only [hv, if_false]
      obtain ⟨h1, h2, h3⟩ := ih t
      refine ⟨?_, h2, ?_⟩
      · rcases List.mem_cons.mp h1 with h | h
        · rw [h]; exact List.mem_cons_self t _
        · exact List.mem_cons_of_mem _ (List.mem_cons_of_mem _ h)
      · intro u hu
        rcases List.mem_cons.mp hu with h | h
        · rw [h]; exact le_trans h2 (not_lt.mp hv)
        · exact h3 u h

/-- On a non-empty timer list, `min_element` returns a pending timer whose
expiration is minimal. -/
theorem MockExecutor.min_element_spec (t : MockTimerRec) (ts : List MockTimerRec) :
    ∃ m, MockExecutor.min_element (t :: ts) = some m ∧
      m ∈ t :: ts ∧ ∀ u ∈ t :: ts, m.time ≤ u.time := by
  obtain ⟨h1, h2, h3⟩ := MockExecutor.foldl_min_spec ts t
  refine ⟨_, rfl, h1, ?_⟩
  intro u hu
  rcases List.mem_cons.mp hu with h | h
  · exact h ▸ h2
  · exact h3 u h

/-- With no pending timers, `run_many` for exactly the queue length drains
the ready queue in FIFO order, appending it to the trace. -/
theorem MockExecutor.run_many_drain :
    ∀ (q : List Nat) (nc : Nat) (ct : Int) (ni : Nat) (tr : List Nat),
      MockExecutor.run_many ⟨nc, ct, q, [], ni, tr⟩ q.length =
        (⟨nc, ct, [], [], ni, tr ++ q⟩, q.length) := by
  intro q
  induction q with
  | nil => intro nc ct ni tr; simp [MockExecutor.run_many, MockExecutor.run_many_go]
  | cons a rest ih =>
    intro nc ct ni tr
    rw [MockExecutor.run_many_eq] at *
    rw [List.length_cons, MockExecutor.run_many_fast]
    have h1 : MockExecutor.run_one_fast ⟨nc, ct, a :: rest, [], ni, tr⟩ =
        (⟨nc, ct, rest, [], ni, tr ++ [a]⟩, true) := by
      simp [MockExecutor.run_one_fast, MockExecutor.sweep_fast]
    rw [h1]
    simp only [if_true]
    have := ih nc ct ni (tr ++ [a])
    rw [MockExecutor.run_many_eq] at this
    rw [this]
    simp

/-- `post_all` only appends to the ready queue, in order. -/
theorem MockExecutor.post_all_spec :
    ∀ (ms : List Nat) (s : MockExecutor),
      MockExecutor.post_all s ms =
        { s with post_queue := s.post_queue ++ ms } := by
  intro ms
  induction ms with
  | nil => intro s; simp [MockExecutor.post_all]
  | cons a rest ih =>
    intro s
    rw [MockExecutor.post_all, ih]
    simp [MockExecutor.post]

/-- The timers of a swept state are a sublist of the original timers. -/
theorem MockExecutor.sweep_timers_subset (s : MockExecutor) :
    ∀ x ∈ ((MockExecutor.check_for_expired_timers s).1).timers, x ∈ s.timers := by
  rw [MockExecutor.check_eq_fast]
  intro x hx
  exact List.mem_of_mem_filter hx

/-- `run_many_fast` never adds pending timers and never rewinds the
allocation counter. -/
theorem MockExecutor.run_many_fast_timers :
    ∀ (n : Nat) (s : MockExecutor),
      (∀ x ∈ ((MockExecutor.run_many_fast s n).1).timers, x ∈ s.timers) ∧
      ((MockExecutor.run_many_fast s n).1).next_id = s.next_id := by
  intro n
  induction n with
  | zero => intro s; exact ⟨fun x hx => hx, rfl⟩
  | succ n ih =>
    intro s
    rw [MockExecutor.run_many_fast]
    by_cases hb : (MockExecutor.run_one_fast s).2
    · simp only [hb, if_true]
      obtain ⟨ih1, ih2⟩ := ih (MockExecutor.run_one_fast s).1
      have hsub : ∀ x ∈ ((MockExecutor.run_one_fast s).1).timers, x ∈ s.timers := by
        intro x hx
        rw [MockExecutor.run_one_fast] at hx
        rcases hq : ((MockExecutor.sweep_fast s).1).post_queue with _ | ⟨a, rest⟩ <;>
          rw [hq] at hx <;>
          exact List.mem_of_mem_filter hx
      have hnid : ((MockExecutor.run_one_fast s).1).next_id = s.next_id := by
        rw [MockExecutor.run_one_fast]
        rcases hq : ((MockExecutor.sweep_fast s).1).post_queue with _ | ⟨a, rest⟩ <;> rfl
      exact ⟨fun x hx => hsub x (ih1 x hx), by rw [ih2, hnid]⟩
    · simp only [hb, if_false]
      constructor
      · intro x hx
        rw [MockExecutor.run_one_fast] at hx
        rcases hq : ((MockExecutor.sweep_fast s).1).post_queue with _ | ⟨a, rest⟩ <;>
          rw [hq] at hx <;>
          exact List.mem_of_mem_filter hx
      · rw [MockExecutor.run_one_fast]
        rcases hq : ((MockExecutor.sweep_fast s).1).post_queue with _ | ⟨a, rest⟩ <;> rfl

/-- `advance_to_next_timer` only ever moves the clock: every other field is
untouched. -/
theorem MockExecutor.advance_next_frame (s : MockExecutor) :
    ((MockExecutor.advance_to_next_timer s).1).timers = s.timers ∧
    ((MockExecutor.advance_to_next_timer s).1).next_id = s.next_id ∧
    ((MockExecutor.advance_to_next_timer s).1).post_queue = s.post_queue ∧
    ((MockExecutor.advance_to_next_timer s).1).trace = s.trace ∧
    ((MockExecutor.advance_to_next_timer s).1).num_timer_cancel
      = s.num_timer_cancel := by
  rw [MockExecutor.advance_to_next_timer]
  by_cases he : s.timers.isEmpty
  · simp [he]
  · by_cases hlt : s.current_time < MockExecutor.next_timer_expiration_abs s <;>
      simp [he, hlt]

/-- Single-operation no-resurrection: an identity absent from the pending
set and older than the allocation counter stays absent, and the counter
never decreases. -/
theorem MockExecutor.op_no_resurrection (s : MockExecutor) (i : Nat)
    (hi : i < s.next_id) (habs : i ∉ s.timers.map MockTimerRec.id) :
    ∀ op : ExecOp,
      i < (ExecOp.apply s op).next_id ∧
      i ∉ ((ExecOp.apply s op).timers.map MockTimerRec.id) := by
  have habs' : ∀ t ∈ s.timers, t.id ≠ i := by
    intro t ht hcon
    exact habs (hcon ▸ List.mem_map_of_mem MockTimerRec.id ht)
  have hmem : ∀ (l : List MockTimerRec), (∀ t ∈ l, t.id ≠ i) →
      i ∉ l.map MockTimerRec.id := by
    intro l hl hcon
    obtain ⟨t, ht, hti⟩ := List.mem_map.mp hcon
    exact hl t ht hti
  intro op
  cases op with
  | do_post a => exact ⟨hi, habs⟩
  | do_start_rel d a =>
    refine ⟨Nat.lt_succ_of_lt hi, hmem _ ?_⟩
    intro t ht
    rcases List.mem_append.mp ht with h | h
    · exact habs' t h
    · simp at h
      rw [h]
      simp only []
      omega
  | do_start_abs t0 a =>
    refine ⟨Nat.lt_succ_of_lt hi, hmem _ ?_⟩
    intro t ht
    rcases List.mem_append.mp ht with h | h
    · exact habs' t h
    · simp at h
      rw [h]
      simp only []
      omega
  | do_run_one =>
    refine ⟨?_, hmem _ ?_⟩
    · rw [ExecOp.apply, MockExecutor.run_one_eq]
      have : ((MockExecutor.run_one_fast s).1).next_id = s.next_id := by
        rw [MockExecutor.run_one_fast]
        rcases hq : ((MockExecutor.sweep_fast s).1).post_queue with _ | ⟨a, rest⟩ <;> rfl
      rw [this]; exact hi
    · intro t ht
      rw [ExecOp.apply, MockExecutor.run_one_eq] at ht
      have hsub : t ∈ s.timers := by
        rw [MockExecutor.run_one_fast] at ht
        rcases hq : ((MockExecutor.sweep_fast s).1).post_queue with _ | ⟨a, rest⟩ <;>
          rw [hq] at ht <;>
          exact List.mem_of_mem_filter ht
      exact habs' t hsub
  | do_run_many n =>
    refine ⟨?_, hmem _ ?_⟩
    · rw [ExecOp.apply, MockExecutor.run_many_eq,
        (MockExecutor.run_many_fast_timers n s).2]
      exact hi
    · intro t ht
      rw [ExecOp.apply, MockExecutor.run_many_eq] at ht
      exact habs' t ((MockExecutor.run_many_fast_timers n s).1 t ht)
  | do_advance_time d =>
    refine ⟨?_, hmem _ ?_⟩
    · have hn : (ExecOp.apply s (ExecOp.do_advance_time d)).next_id = s.next_id := by
        rw [ExecOp.apply, MockExecutor.advance_time_eq]; rfl
      rw [hn]; exact hi
    · intro t ht
      rw [ExecOp.apply, MockExecutor.advance_time_eq] at ht
      exact habs' t (List.mem_of_mem_filter ht)
  | do_add_time d => exact ⟨hi, habs⟩
  | do_advance_next =>
    obtain ⟨hts, hnid, _, _, _⟩ := MockExecutor.advance_next_frame s
    refine ⟨?_, ?_⟩
    · rw [ExecOp.apply, hnid]; exact hi
    · rw [ExecOp.apply, hts]; exact habs
  | do_cancel j =>
    rw [ExecOp.apply, MockExecutor.cancel]
    by_cases hf : ((s.timers.find? (fun t => t.id == j)).isSome : Prop)
    · simp only [hf, if_true]
      refine ⟨hi, hmem _ ?_⟩
      intro t ht
      exact habs' t (List.mem_of_mem_eraseP ht)
    · simp only [hf, if_false]
      exact ⟨hi, habs⟩

/-- Absence of an identity is preserved by every interaction sequence. -/
theorem MockExecutor.apply_all_no_resurrection (i : Nat) :
    ∀ (ops : List ExecOp) (s : MockExecutor),
      i < s.next_id →
      i ∉ s.timers.map MockTimerRec.id →
      i ∉ ((ExecOp.apply_all s ops).timers.map MockTimerRec.id) := by
  intro ops
  induction ops with
  | nil => intro s _ habs; exact habs
  | cons op rest ih =>
    intro s hi habs
    obtain ⟨h1, h2⟩ := MockExecutor.op_no_resurrection s i hi habs op
    exact ih (ExecOp.apply s op) h1 h2

/-- Erasing the record with identity `i` from a duplicate-free timer list
leaves no record with identity `i`. -/
theorem MockExecutor.mem_eraseP_id (i : Nat) :
    ∀ l : List MockTimerRec,
      (l.map MockTimerRec.id).Nodup →
      i ∉ ((l.eraseP (fun t => t.id == i)).map MockTimerRec.id) := by
  intro l
  induction l with
  | nil => intro _; simp
  | cons t rest ih =>
    intro hnd
    rw [List.map_cons, List.nodup_cons] at hnd
    obtain ⟨hhead, hrest⟩ := hnd
    by_cases ht : t.id = i
    · rw [List.eraseP_cons_of_pos (by simp [ht])]
      rw [← ht]
      exact hhead
    · rw [List.eraseP_cons_of_neg (by simp [ht])]
      rw [List.map_cons]
      intro hcon
      rcases List.mem_cons.mp hcon with h | h
      · exact ht h.symm
      · exact ih hrest h

/-! ## Claims -/

/-- C6: `run_one()` first moves every pending timer whose expiration is less
than or equal to the current virtual time into the ready queue (in pending
order), then, if the ready queue is non-empty, pops its front entry, invokes
it, and returns `true`; if the ready queue is empty after the sweep it
returns `false`. -/
theorem C6_run_one_sweeps_then_pops (s : MockExecutor) :
    MockExecutor.run_one s =
      (match s.post_queue ++
          (s.timers.filter (MockExecutor.expired s.current_time)).map
            MockTimerRec.action with
       | [] =>
         ({ s with
             post_queue := [],
             timers := s.timers.filter
               (fun t => !MockExecutor.expired s.current_time t) }, false)
       | a :: rest =>
         ({ s with
             post_queue := rest,
             timers := s.timers.filter
               (fun t => !MockExecutor.expired s.current_time t),
             trace := s.trace ++ [a] }, true)) := by
  rw [MockExecutor.run_one_eq]
  rcases hA : s.post_queue ++
      (s.timers.filter (MockExecutor.expired s.current_time)).map
        MockTimerRec.action with _ | ⟨a, rest⟩ <;>
    simp only [MockExecutor.run_one_fast, MockExecutor.sweep_fast, hA]

/-- C10: for every action and expiration (including past-due ones), both
`start` overloads append exactly one record to the pending-timer set
(`num_pending_timers()` goes up by one) and leave the ready queue, the
virtual clock, the cancellation counter, and the trace (no invocation)
unchanged. -/
theorem C10_start_frame (s : MockExecutor) (d t : Int) (a : Nat) :
    (MockExecutor.start_abs s t a).1.timers
        = s.timers ++ [{ time := t, action := a, id := s.next_id }] ∧
    MockExecutor.num_pending_timers (MockExecutor.start_abs s t a).1
        = MockExecutor.num_pending_timers s + 1 ∧
    (MockExecutor.start_abs s t a).1.post_queue = s.post_queue ∧
    (MockExecutor.start_abs s t a).1.current_time = s.current_time ∧
    (MockExecutor.start_abs s t a).1.num_timer_cancel = s.num_timer_cancel ∧
    (MockExecutor.start_abs s t a).1.trace = s.trace ∧
    (MockExecutor.start_rel s d a).1.timers
        = s.timers ++ [{ time := s.current_time + d, action := a, id := s.next_id }] ∧
    MockExecutor.num_pending_timers (MockExecutor.start_rel s d a).1
        = MockExecutor.num_pending_timers s + 1 ∧
    (MockExecutor.start_rel s d a).1.post_queue = s.post_queue ∧
    (MockExecutor.start_rel s d a).1.current_time = s.current_time ∧
    (MockExecutor.start_rel s d a).1.num_timer_cancel = s.num_timer_cancel ∧
    (MockExecutor.start_rel s d a).1.trace = s.trace :=
  ⟨rfl, by simp [MockExecutor.num_pending_timers, MockExecutor.start_abs],
   rfl, rfl, rfl, rfl,
   rfl, by simp [MockExecutor.num_pending_timers, MockExecutor.start_rel,
     MockExecutor.start_abs],
   rfl, rfl, rfl, rfl⟩

/-- C2 counterexample: `add_time` with the negative duration `-1` strictly
decreases `get_time()` on a fresh scheduler, so the claim as stated (over
all signed durations) is false. -/
theorem C2_counterexample :
    MockExecutor.get_time (MockExecutor.add_time MockExecutor.fresh (-1)) <
      MockExecutor.get_time MockExecutor.fresh := by
  decide

/-- C2 amended: for every scheduler state and every non-negative duration,
`add_time` and `advance_time` never decrease `get_time()`. -/
theorem C2_amended_monotone (s : MockExecutor) (d : Int) (h : 0 ≤ d) :
    MockExecutor.get_time s ≤
      MockExecutor.get_time (MockExecutor.add_time s d) ∧
    MockExecutor.get_time s ≤
      MockExecutor.get_time ((MockExecutor.advance_time s d).1) := by
  constructor
  · simp only [MockExecutor.get_time, MockExecutor.add_time]
    omega
  · rw [MockExecutor.advance_time_eq]
    simp only [MockExecutor.get_time, MockExecutor.sweep_fast,
      MockExecutor.add_time]
    omega

theorem C2_amended_monotone_witness :
    (0 : Int) ≤ 3 ∧
    (MockExecutor.get_time MockExecutor.fresh ≤
      MockExecutor.get_time (MockExecutor.add_time MockExecutor.fresh 3) ∧
     MockExecutor.get_time MockExecutor.fresh ≤
      MockExecutor.get_time ((MockExecutor.advance_time MockExecutor.fresh 3).1)) :=
  ⟨by decide, C2_amended_monotone MockExecutor.fresh 3 (by decide)⟩

/-- C3 (modelled from the spec, `Timer.h` not among the sources): calling
`cancel()` on a Timer handle after the owning scheduler has been destroyed
silently does nothing, for every handle and every number of repeated calls:
the destroyed world is left exactly as it was. -/
theorem C3_cancel_after_destruction (h : TimerHandle) (n : Nat) :
    TimerHandle.cancel_iter h n SchedulerWorld.destroyed =
      SchedulerWorld.destroyed := by
  induction n with
  | zero => rfl
  | succ n ih => rw [TimerHandle.cancel_iter]; exact ih

/-- C1 counterexample: in the concrete sequence
`post(A); schedule_absolute(now, B); post(C); run_many(3)` (markers
A = 1, B = 2, C = 3) the executed order is not A, B, C: B is swept into the
ready queue only at the first `run_one`, by which time C is already
enqueued. -/
theorem C1_counterexample :
    (MockExecutor.run_many (MockExecutor.interleaving 1 2 3) 3).1.trace
      ≠ [1, 2, 3] := by
  rw [MockExecutor.run_many_eq]
  decide

/-- C1 amended: for the concrete sequence `post(A);
schedule_absolute(now, B); post(C); run_many(3)` on a fresh scheduler, the
three actions execute in the order A, C, B. -/
theorem C1_amended_order (a b c : Nat) :
    (MockExecutor.run_many (MockExecutor.interleaving a b c) 3).1.trace
      = [a, c, b] := by
  rw [MockExecutor.run_many_eq]
  simp [MockExecutor.interleaving, MockExecutor.run_many_fast,
    MockExecutor.run_one_fast, MockExecutor.sweep_fast, MockExecutor.post,
    MockExecutor.start_abs, MockExecutor.get_time, MockExecutor.fresh,
    MockExecutor.expired]

/-- C4 counterexample: with a single timer already due at the current time
(expiration 0, clock 0), no pending expiration lies in `(0, 0+5]`, yet
`advance_time(5)` still sweeps that timer and returns 1, not 0. -/
theorem C4_counterexample :
    (∀ t ∈ (MockExecutor.one_timer_at 0).timers,
        ¬((MockExecutor.one_timer_at 0).current_time < t.time ∧
          t.time ≤ (MockExecutor.one_timer_at 0).current_time + 5)) ∧
    (MockExecutor.advance_time (MockExecutor.one_timer_at 0) 5).2 = 1 := by
  constructor
  · decide
  · rw [MockExecutor.advance_time_eq]
    decide

/-- C4 amended: if no pending timer's expiration is less than or equal to
`old_time + d` (in particular none lies in `(old_time, old_time + d]` and
none is already due), `advance_time(d)` returns 0 and leaves the ready queue
unchanged. -/
theorem C4_amended_no_spurious (s : MockExecutor) (d : Int)
    (h : ∀ t ∈ s.timers, ¬(t.time ≤ s.current_time + d)) :
    (MockExecutor.advance_time s d).2 = 0 ∧
    (MockExecutor.advance_time s d).1.post_queue = s.post_queue := by
  rw [MockExecutor.advance_time_eq]
  have hf : s.timers.filter (MockExecutor.expired (s.current_time + d)) = [] := by
    rw [List.filter_eq_nil_iff]
    intro t ht
    have ht2 := h t ht
    simp only [MockExecutor.expired, decide_eq_true_eq]
    exact ht2
  exact ⟨by simp [MockExecutor.sweep_fast, MockExecutor.add_time, hf],
         by simp [MockExecutor.sweep_fast, MockExecutor.add_time, hf]⟩

theorem C4_amended_no_spurious_witness :
    (∀ t ∈ (MockExecutor.one_timer_at 10).timers,
        ¬(t.time ≤ (MockExecutor.one_timer_at 10).current_time + 3)) ∧
    ((MockExecutor.advance_time (MockExecutor.one_timer_at 10) 3).2 = 0 ∧
     (MockExecutor.advance_time (MockExecutor.one_timer_at 10) 3).1.post_queue
       = (MockExecutor.one_timer_at 10).post_queue) :=
  ⟨by decide,
   C4_amended_no_spurious (MockExecutor.one_timer_at 10) 3 (by decide)⟩

/-- C5: the ready queue is strictly FIFO.  (i) Posting any sequence of
markers on a fresh scheduler and draining with `run_many(N)` executes them
in the exact order posted, all `N` of them; (ii) more generally, from any
timer-free state, draining runs exactly the queue contents in queue order,
whatever they originated from; (iii) a sweep only appends timer actions at
the back of the queue, preserving the order of earlier entries. -/
theorem C5_fifo :
    (∀ ms : List Nat,
        (MockExecutor.run_many (MockExecutor.post_all MockExecutor.fresh ms)
            ms.length).1.trace = ms ∧
        (MockExecutor.run_many (MockExecutor.post_all MockExecutor.fresh ms)
            ms.length).2 = ms.length) ∧
    (∀ (q tr : List Nat) (nc : Nat) (ct : Int) (ni : Nat),
        MockExecutor.run_many ⟨nc, ct, q, [], ni, tr⟩ q.length =
          (⟨nc, ct, [], [], ni, tr ++ q⟩, q.length)) ∧
    (∀ s : MockExecutor,
        ((MockExecutor.check_for_expired_timers s).1).post_queue =
          s.post_queue ++
            (s.timers.filter (MockExecutor.expired s.current_time)).map
              MockTimerRec.action) := by
  refine ⟨?_, ?_, ?_⟩
  · intro ms
    rw [MockExecutor.post_all_spec ms MockExecutor.fresh]
    have hd : MockExecutor.run_many ⟨0, 0, ms, [], 0, []⟩ ms.length
        = (⟨0, 0, [], [], 0, [] ++ ms⟩, ms.length) :=
      MockExecutor.run_many_drain ms 0 0 0 []
    constructor
    · simpa using congrArg (fun p => (p.1).trace) hd
    · exact congrArg Prod.snd hd
  · intro q tr nc ct ni
    exact MockExecutor.run_many_drain q nc ct ni tr
  · intro s
    rw [MockExecutor.check_eq_fast]
    rfl

/-- C8: `advance_to_next_timer()` sets the clock to exactly the earliest
pending expiration and returns `true` when at least one timer is pending and
that earliest expiration is strictly after the current time; otherwise it
returns `false` and leaves the clock unchanged; and it never sweeps (ready
queue, pending set and trace are untouched in every case). -/
theorem C8_advance_to_next_timer_spec (s : MockExecutor) :
    (s.timers = [] → MockExecutor.advance_to_next_timer s = (s, false)) ∧
    (s.timers ≠ [] →
      s.current_time < MockExecutor.next_timer_expiration_abs s →
      MockExecutor.advance_to_next_timer s =
        ({ s with current_time := MockExecutor.next_timer_expiration_abs s },
         true)) ∧
    (s.timers ≠ [] →
      ¬ s.current_time < MockExecutor.next_timer_expiration_abs s →
      MockExecutor.advance_to_next_timer s = (s, false)) ∧
    (s.timers ≠ [] →
      MockExecutor.next_timer_expiration_abs s ∈
        s.timers.map MockTimerRec.time ∧
      ∀ t ∈ s.timers, MockExecutor.next_timer_expiration_abs s ≤ t.time) ∧
    ((MockExecutor.advance_to_next_timer s).1.post_queue = s.post_queue ∧
     (MockExecutor.advance_to_next_timer s).1.timers = s.timers ∧
     (MockExecutor.advance_to_next_timer s).1.trace = s.trace) := by
  refine ⟨?_, ?_, ?_, ?_, ?_⟩
  · intro he
    rw [MockExecutor.advance_to_next_timer]
    simp [he]
  · intro hne hlt
    rw [MockExecutor.advance_to_next_timer]
    simp only [List.isEmpty_iff]
    rw [if_neg hne, if_pos hlt]
  · intro hne hnlt
    rw [MockExecutor.advance_to_next_timer]
    simp only [List.isEmpty_iff]
    rw [if_neg hne, if_neg hnlt]
  · intro hne
    rcases hl : s.timers with _ | ⟨t, ts⟩
    · exact absurd hl hne
    · obtain ⟨m, hm, hmem, hmin⟩ := MockExecutor.min_element_spec t ts
      have habs : MockExecutor.next_timer_expiration_abs s = m.time := by
        rw [MockExecutor.next_timer_expiration_abs, hl, hm]
      constructor
      · rw [habs]
        exact List.mem_map_of_mem MockTimerRec.time hmem
      · intro u hu
        rw [habs]
        exact hmin u hu
  · obtain ⟨h1, _, h2, h3, _⟩ := MockExecutor.advance_next_frame s
    exact ⟨h2, h1, h3⟩

theorem C8_advance_to_next_timer_witness :
    (MockExecutor.two_timers.timers ≠ []) ∧
    (MockExecutor.two_timers.current_time <
      MockExecutor.next_timer_expiration_abs MockExecutor.two_timers) ∧
    MockExecutor.advance_to_next_timer MockExecutor.two_timers =
      ({ MockExecutor.two_timers with
          current_time :=
            MockExecutor.next_timer_expiration_abs MockExecutor.two_timers },
       true) :=
  ⟨by decide, by decide,
   (C8_advance_to_next_timer_spec MockExecutor.two_timers).2.1
     (by decide) (by decide)⟩

/-- C9: `next_timer_expiration_rel()` returns the earliest pending
expiration minus the current virtual time when at least one timer is
pending, and the maximum representable time value when none is pending. -/
theorem C9_next_timer_expiration_rel_spec (s : MockExecutor) :
    (s.timers = [] →
      MockExecutor.next_timer_expiration_rel s = steady_time_max) ∧
    (s.timers ≠ [] →
      MockExecutor.next_timer_expiration_rel s =
        MockExecutor.next_timer_expiration_abs s - s.current_time ∧
      MockExecutor.next_timer_expiration_abs s ∈
        s.timers.map MockTimerRec.time ∧
      ∀ t ∈ s.timers, MockExecutor.next_timer_expiration_abs s ≤ t.time) := by
  constructor
  · intro he
    rw [MockExecutor.next_timer_expiration_rel, he]
    rfl
  · intro hne
    rcases hl : s.timers with _ | ⟨t, ts⟩
    · exact absurd hl hne
    · obtain ⟨m, hm, hmem, hmin⟩ := MockExecutor.min_element_spec t ts
      have habs : MockExecutor.next_timer_expiration_abs s = m.time := by
        rw [MockExecutor.next_timer_expiration_abs, hl, hm]
      refine ⟨?_, ?_, ?_⟩
      · rw [MockExecutor.next_timer_expiration_rel, hl, hm, habs]
      · rw [habs]
        exact List.mem_map_of_mem MockTimerRec.time hmem
      · intro u hu
        rw [habs]
        exact hmin u hu

theorem C9_next_timer_expiration_rel_witness :
    (MockExecutor.two_timers.timers ≠ []) ∧
    (MockExecutor.next_timer_expiration_rel MockExecutor.two_timers =
        MockExecutor.next_timer_expiration_abs MockExecutor.two_timers -
          MockExecutor.two_timers.current_time ∧
      MockExecutor.next_timer_expiration_abs MockExecutor.two_timers ∈
        MockExecutor.two_timers.timers.map MockTimerRec.time ∧
      ∀ t ∈ MockExecutor.two_timers.timers,
        MockExecutor.next_timer_expiration_abs MockExecutor.two_timers ≤
          t.time) :=
  ⟨by decide,
   (C9_next_timer_expiration_rel_spec MockExecutor.two_timers).2 (by decide)⟩

/-- C7: if a timer's record is still pending, `cancel()` removes it from the
pending set and increments `num_timer_cancel()` by exactly one, leaving
clock, queue, allocation counter and trace untouched; if the record is
absent (already fired or already cancelled) `cancel()` is a complete no-op,
and repeating the call changes nothing; moreover, once cancelled, the
record's identity can never re-enter the pending set under any interaction
sequence — the only way an action reaches the ready queue from a timer is
from the pending set, so the cancelled timer's action never runs. -/
theorem C7_cancel_spec (s : MockExecutor) (i : Nat) :
    (i ∈ s.timers.map MockTimerRec.id →
      ((MockExecutor.cancel s i).num_timer_cancel = s.num_timer_cancel + 1 ∧
       (MockExecutor.cancel s i).timers =
         s.timers.eraseP (fun t => t.id == i) ∧
       (MockExecutor.cancel s i).current_time = s.current_time ∧
       (MockExecutor.cancel s i).post_queue = s.post_queue ∧
       (MockExecutor.cancel s i).next_id = s.next_id ∧
       (MockExecutor.cancel s i).trace = s.trace)) ∧
    (i ∉ s.timers.map MockTimerRec.id → MockExecutor.cancel s i = s) ∧
    (MockExecutor.WF s →
      MockExecutor.cancel (MockExecutor.cancel s i) i =
        MockExecutor.cancel s i) ∧
    (MockExecutor.WF s →
      i ∉ ((MockExecutor.cancel s i).timers.map MockTimerRec.id)) ∧
    (MockExecutor.WF s → i < s.next_id →
      ∀ ops : List ExecOp,
        i ∉ ((ExecOp.apply_all (MockExecutor.cancel s i) ops).timers.map
          MockTimerRec.id)) := by
  have hiff : ((s.timers.find? (fun t => t.id == i)).isSome = true) ↔
      i ∈ s.timers.map MockTimerRec.id := by
    simp [List.find?_isSome, List.mem_map]
  have hnoop : ∀ s2 : MockExecutor, i ∉ s2.timers.map MockTimerRec.id →
      MockExecutor.cancel s2 i = s2 := by
    intro s2 habs
    have hnone : s2.timers.find? (fun t => t.id == i) = none := by
      rw [List.find?_eq_none]
      intro t ht hcon
      have hti : t.id = i := by simpa using hcon
      exact habs (hti ▸ List.mem_map_of_mem MockTimerRec.id ht)
    rw [MockExecutor.cancel, hnone]
    simp
  have hfound_eq : i ∈ s.timers.map MockTimerRec.id →
      MockExecutor.cancel s i =
        { s with num_timer_cancel := s.num_timer_cancel + 1,
                 timers := s.timers.eraseP (fun t => t.id == i) } := by
    intro him
    rw [MockExecutor.cancel, if_pos (hiff.mpr him)]
  have hrem : MockExecutor.WF s →
      i ∉ ((MockExecutor.cancel s i).timers.map MockTimerRec.id) := by
    intro hwf
    by_cases him : i ∈ s.timers.map MockTimerRec.id
    · rw [hfound_eq him]
      exact MockExecutor.mem_eraseP_id i s.timers hwf.1
    · rw [hnoop s him]
      exact him
  refine ⟨fun him => ?_, hnoop s, fun hwf => ?_, hrem, fun hwf hi ops => ?_⟩
  · rw [hfound_eq him]
    exact ⟨rfl, rfl, rfl, rfl, rfl, rfl⟩
  · exact hnoop _ (hrem hwf)
  · have h2 : i < (MockExecutor.cancel s i).next_id := by
      by_cases him : i ∈ s.timers.map MockTimerRec.id
      · rw [hfound_eq him]
        exact hi
      · rw [hnoop s him]
        exact hi
    exact MockExecutor.apply_all_no_resurrection i ops _ h2 (hrem hwf)

theorem C7_cancel_spec_witness :
    (0 ∈ MockExecutor.two_timers.timers.map MockTimerRec.id) ∧
    MockExecutor.WF MockExecutor.two_timers ∧
    (MockExecutor.cancel MockExecutor.two_timers 0).num_timer_cancel =
      MockExecutor.two_timers.num_timer_cancel + 1 ∧
    MockExecutor.cancel (MockExecutor.cancel MockExecutor.two_timers 0) 0 =
      MockExecutor.cancel MockExecutor.two_timers 0 ∧
    (0 ∉ ((MockExecutor.cancel MockExecutor.two_timers 0).timers.map
      MockTimerRec.id)) :=
  ⟨by decide, ⟨by decide, by decide⟩,
   ((C7_cancel_spec MockExecutor.two_timers 0).1 (by decide)).1,
   (C7_cancel_spec MockExecutor.two_timers 0).2.2.1 ⟨by decide, by decide⟩,
   (C7_cancel_spec MockExecutor.two_timers 0).2.2.2.1 ⟨by decide, by decide⟩⟩
